import Mathlib

/-!
# PowerTrader AI — formal verification of the core trading pipeline

A shallow embedding of the core modules of the PowerTrader repository
(`src/powertrader/...`), with theorems settling the specification's
claims about them.

Python floats are modelled as exact rationals (`ℚ`); Python ints as `ℤ`
or `ℕ`; Python strings as `List Char` where the on-disk text format
matters.  Per-coin dictionaries of the engines are modelled as the state
for a single coin (all claims are per-coin).  Wall-clock time
(`time.time()`) is passed explicitly as a `now : ℚ` parameter, matching
the optional `now` parameter of `DCAEngine._window_count`.
-/

namespace PowerTrader

/-! ## Constants (from `core/constants.py`) -/

def SENTINEL_HIGH : ℚ := 99999999999999999
def SENTINEL_LOW : ℚ := 1/100

def DEFAULT_TRADE_START_LEVEL : ℤ := 3
def DEFAULT_START_ALLOCATION_PCT : ℚ := 5/1000
def DEFAULT_DCA_MULTIPLIER : ℚ := 2
def DEFAULT_DCA_LEVELS : List ℚ := [-5/2, -5, -10, -20, -30, -40, -50]
def DEFAULT_MAX_DCA_BUYS_PER_24H : ℤ := 2
def DEFAULT_PM_START_PCT_NO_DCA : ℚ := 5
def DEFAULT_PM_START_PCT_WITH_DCA : ℚ := 5/2
def DEFAULT_TRAILING_GAP_PCT : ℚ := 1/2
def DEFAULT_CANDLES_LIMIT : ℤ := 120
def DEFAULT_UI_REFRESH_SECONDS : ℚ := 1
def DEFAULT_CHART_REFRESH_SECONDS : ℚ := 10

def WEIGHT_ADJUST_INCREMENT : ℚ := 1/4
def WEIGHT_MAX : ℚ := 2
def WEIGHT_MIN_NEUTRAL : ℚ := -2

def DCA_WINDOW_SECONDS : ℚ := 24 * 60 * 60

/-! ## `TradingConfig` (from `core/config.py`)

The string-valued GUI fields (`coins`, `main_neural_dir`) are not
referenced by any embedded operation and are omitted. -/

structure TradingConfig where
  trade_start_level : ℤ := DEFAULT_TRADE_START_LEVEL
  start_allocation_pct : ℚ := DEFAULT_START_ALLOCATION_PCT
  dca_multiplier : ℚ := DEFAULT_DCA_MULTIPLIER
  dca_levels : List ℚ := DEFAULT_DCA_LEVELS
  max_dca_buys_per_24h : ℤ := DEFAULT_MAX_DCA_BUYS_PER_24H
  pm_start_pct_no_dca : ℚ := DEFAULT_PM_START_PCT_NO_DCA
  pm_start_pct_with_dca : ℚ := DEFAULT_PM_START_PCT_WITH_DCA
  trailing_gap_pct : ℚ := DEFAULT_TRAILING_GAP_PCT
  candles_limit : ℤ := DEFAULT_CANDLES_LIMIT
  ui_refresh_seconds : ℚ := DEFAULT_UI_REFRESH_SECONDS
  chart_refresh_seconds : ℚ := DEFAULT_CHART_REFRESH_SECONDS
  deriving DecidableEq

/-! ## `Position` (from `models/position.py`)

The trailing fields of the Python dataclass live in `TrailingState`
below (the engine keeps its own copy); only the fields the embedded
operations read are kept here. -/

structure Position where
  entry_price : ℚ
  quantity : ℚ
  cost_basis_usd : ℚ := 0
  dca_count : ℕ := 0
  deriving DecidableEq

/-- `Position.avg_price`: `cost_basis_usd / quantity`, `0.0` if `quantity` is zero. -/
def Position.avg_price (p : Position) : ℚ :=
  if p.quantity = 0 then 0 else p.cost_basis_usd / p.quantity

/-- `Position.pnl_pct`: `(current - avg) / avg * 100`, `0.0` if `avg_price` is zero. -/
def Position.pnl_pct (p : Position) (current_price : ℚ) : ℚ :=
  if p.avg_price = 0 then 0
  else (current_price - p.avg_price) / p.avg_price * 100

/-- `Position.market_value`: `quantity * current_price`. -/
def Position.market_value (p : Position) (current_price : ℚ) : ℚ :=
  p.quantity * current_price

/-! ## Trailing profit-margin engine (from `trader/trailing_engine.py`) -/

structure TrailingState where
  active : Bool := false
  peak : ℚ := 0
  line : ℚ := 0
  was_above : Bool := false
  deriving DecidableEq

/-- `TrailingProfitEngine.get_pm_start_line`. -/
def get_pm_start_line (cfg : TradingConfig) (position : Position) : ℚ :=
  let avg := position.avg_price
  if avg ≤ 0 then 0
  else
    let pct := if position.dca_count = 0 then cfg.pm_start_pct_no_dca
               else cfg.pm_start_pct_with_dca
    avg * (1 + pct / 100)

/-- `TrailingProfitEngine.update_trailing` for one coin: the per-coin
`TrailingState` is passed and returned explicitly. -/
def update_trailing (cfg : TradingConfig) (position : Position)
    (state : TrailingState) (current_price : ℚ) : TrailingState :=
  let base_line := get_pm_start_line cfg position
  -- Pre-activation: line tracks the base PM start line.
  -- Post-activation: ensure line never drops below base.
  let s1 : TrailingState :=
    if !state.active then { state with line := base_line }
    else if state.line < base_line then { state with line := base_line }
    else state
  let above_now : Bool := decide (current_price ≥ s1.line)
  -- Activate trailing once price first reaches the line.
  let s2 : TrailingState :=
    if !s1.active && above_now then { s1 with active := true, peak := current_price }
    else s1
  -- While active, track new peaks and move the trailing line up.
  let s3 : TrailingState :=
    if s2.active then
      let peak' := if current_price > s2.peak then current_price else s2.peak
      let gap_frac := cfg.trailing_gap_pct / 100
      let new_line := peak' * (1 - gap_frac)
      let new_line' := if new_line < base_line then base_line else new_line
      let line' := if new_line' > s2.line then new_line' else s2.line
      { s2 with peak := peak', line := line' }
    else s2
  { s3 with was_above := above_now }

/-- `TrailingProfitEngine.should_exit` for one coin whose state exists.
(When no state is stored for the coin the method returns `False`; that
case never arises in the claims, which run `update_trailing` first.) -/
def should_exit (state : TrailingState) (current_price : ℚ) : Bool :=
  state.active && (state.was_above && decide (current_price < state.line))

/-- The sequence of states produced by calling `update_trailing` on each
price of a list in turn, starting from `s`. -/
def trail_states (cfg : TradingConfig) (position : Position) :
    TrailingState → List ℚ → List TrailingState
  | _, [] => []
  | s, p :: ps =>
    let s' := update_trailing cfg position s p
    s' :: trail_states cfg position s' ps

/-! ## DCA engine (from `trader/dca_engine.py`)

The engine keeps per-coin dictionaries `_dca_buy_timestamps` and
`_last_sell_timestamps`; `DcaState` is the slice of that state for one
coin (`last_sell` defaults to `0.0` via `dict.get(coin, 0.0)`). -/

structure DcaState where
  timestamps : List ℚ := []
  last_sell : ℚ := 0
  deriving DecidableEq

def MAX_NEURAL_DCA_STAGES : ℕ := 4
def NEURAL_LEVEL_OFFSET : ℤ := 4

/-- `DCAEngine._get_hard_threshold`. -/
def get_hard_threshold (cfg : TradingConfig) (stage : ℕ) : ℚ :=
  let levels := cfg.dca_levels
  if levels = [] then -50
  else levels.getD (min stage (levels.length - 1)) 0

/-- `DCAEngine._window_count`: buys after the last sell and within the
rolling 24h window (the in-place pruning does not change the count). -/
def window_count (st : DcaState) (now : ℚ) : ℕ :=
  let cutoff := now - DCA_WINDOW_SECONDS
  (st.timestamps.filter (fun t => decide (t > st.last_sell) && decide (t ≥ cutoff))).length

/-- `DCAEngine.can_dca_within_rate_limit`. -/
def can_dca_within_rate_limit (cfg : TradingConfig) (st : DcaState) (now : ℚ) : Bool :=
  decide ((window_count st now : ℤ) < cfg.max_dca_buys_per_24h)

/-- `DCAEngine.get_current_stage`. -/
def get_current_stage (position : Position) : ℕ :=
  position.dca_count

/-- `DCAEngine.should_dca`. -/
def should_dca (cfg : TradingConfig) (st : DcaState) (now : ℚ)
    (position : Position) (current_price : ℚ) (long_signal : ℤ) : Bool × String :=
  if !can_dca_within_rate_limit cfg st now then (false, "")
  else
    let stage := get_current_stage position
    let pnl_pct := position.pnl_pct current_price
    let hard_threshold := get_hard_threshold cfg stage
    let hard_hit : Bool := decide (pnl_pct ≤ hard_threshold)
    let required_level : ℤ := (stage : ℤ) + NEURAL_LEVEL_OFFSET
    let neural_hit : Bool :=
      decide (stage < MAX_NEURAL_DCA_STAGES) &&
        (decide (pnl_pct < 0) && decide (long_signal ≥ required_level))
    if hard_hit then (true, "hard_stage_" ++ toString stage)
    else if neural_hit then (true, "neural_" ++ toString required_level)
    else (false, "")

/-- `DCAEngine.calculate_dca_amount`. -/
def calculate_dca_amount (cfg : TradingConfig) (position : Position)
    (current_price : ℚ) : ℚ :=
  position.market_value current_price * cfg.dca_multiplier

/-! ## Entry engine (from `trader/entry_engine.py` and `trader/runner.py`) -/

structure Signal where
  long_level : ℤ := 0
  short_level : ℤ := 0
  deriving DecidableEq

/-- `EntryEngine.should_enter`. -/
def should_enter (cfg : TradingConfig) (signal : Signal) : Bool :=
  decide (signal.long_level ≥ cfg.trade_start_level) && decide (signal.short_level = 0)

/-- `EntryEngine.calculate_entry_size`. -/
def calculate_entry_size (cfg : TradingConfig) (account_value : ℚ) : ℚ :=
  account_value * cfg.start_allocation_pct

/-- The entry decision of `TraderRunner._check_entry`: the quote amount
sent to `market_buy`, or `none` when no order is placed.  (The actual
fill and position bookkeeping are venue side effects.) -/
def entry_order (cfg : TradingConfig) (signal : Signal) (account_value : ℚ) : Option ℚ :=
  if !should_enter cfg signal then none
  else
    let entry_size := calculate_entry_size cfg account_value
    if entry_size ≤ 0 then none
    else some entry_size

/-! ## Config loading (from `core/config.py`)

A raw scalar read from `gui_settings.json` is modelled by `RawVal`:
`num q` covers every JSON value whose `str()` form, after stripping `%`
and whitespace, parses via Python `float` to the exact value `q`
(numbers, and numeric strings such as `"0.5%"`); `junk` covers values
whose conversion raises; `missing` covers an absent key
(`dict.get` returns `None`, and `float(str(None))` raises). -/

inductive RawVal where
  | missing
  | junk
  | num (q : ℚ)
  deriving DecidableEq

/-- Python `int()` truncation toward zero. -/
def py_int (q : ℚ) : ℤ :=
  if 0 ≤ q then ⌊q⌋ else ⌈q⌉

/-- `_safe_float`. -/
def safe_float (value : RawVal) (default : ℚ) : ℚ :=
  match value with
  | .num q => q
  | _ => default

/-- `_safe_int` (`int(float(...))` truncates toward zero). -/
def safe_int (value : RawVal) (default : ℤ) : ℤ :=
  match value with
  | .num q => py_int q
  | _ => default

/-- `_clamp`. -/
def clamp (value lo hi : ℤ) : ℤ :=
  max lo (min hi value)

/-- `_parse_dca_levels`: `none` models a key that is absent or not a
list; `some l` a JSON list whose elements all parse as floats (a parse
failure of any element also falls back to the default). -/
def parse_dca_levels (raw : Option (List ℚ)) : List ℚ :=
  match raw with
  | some (q :: qs) => q :: qs
  | _ => DEFAULT_DCA_LEVELS

/-- The raw settings dict restricted to the recognised numeric keys
(unknown keys are ignored by `from_file`). -/
structure RawSettings where
  trade_start_level : RawVal := .missing
  start_allocation_pct : RawVal := .missing
  dca_multiplier : RawVal := .missing
  dca_levels : Option (List ℚ) := none
  max_dca_buys_per_24h : RawVal := .missing
  pm_start_pct_no_dca : RawVal := .missing
  pm_start_pct_with_dca : RawVal := .missing
  trailing_gap_pct : RawVal := .missing
  candles_limit : RawVal := .missing
  ui_refresh_seconds : RawVal := .missing
  chart_refresh_seconds : RawVal := .missing

/-- `TradingConfig.from_file` (the construction of the config from the
parsed JSON dict; validation only logs warnings and never raises). -/
def TradingConfig.from_file (data : RawSettings) : TradingConfig :=
  { trade_start_level :=
      clamp (safe_int data.trade_start_level DEFAULT_TRADE_START_LEVEL) 1 7
    start_allocation_pct :=
      safe_float data.start_allocation_pct DEFAULT_START_ALLOCATION_PCT
    dca_multiplier := safe_float data.dca_multiplier DEFAULT_DCA_MULTIPLIER
    dca_levels := parse_dca_levels data.dca_levels
    max_dca_buys_per_24h :=
      max 0 (safe_int data.max_dca_buys_per_24h DEFAULT_MAX_DCA_BUYS_PER_24H)
    pm_start_pct_no_dca :=
      safe_float data.pm_start_pct_no_dca DEFAULT_PM_START_PCT_NO_DCA
    pm_start_pct_with_dca :=
      safe_float data.pm_start_pct_with_dca DEFAULT_PM_START_PCT_WITH_DCA
    trailing_gap_pct := safe_float data.trailing_gap_pct DEFAULT_TRAILING_GAP_PCT
    candles_limit := safe_int data.candles_limit DEFAULT_CANDLES_LIMIT
    ui_refresh_seconds :=
      safe_float data.ui_refresh_seconds DEFAULT_UI_REFRESH_SECONDS
    chart_refresh_seconds :=
      safe_float data.chart_refresh_seconds DEFAULT_CHART_REFRESH_SECONDS }

/-! ## Signal-level counting (from `thinker/signal_engine.py`,
`count_signal_levels`)

The Python loop runs over `range(len(high_bounds))` and indexes the
other three lists at `i`; the parallel recursion below is identical on
the equal-length inputs the callers pass. -/

/-- The per-timeframe `(side, margin)` rows of `count_signal_levels`. -/
def signal_rows (current_price : ℚ) :
    List ℚ → List ℚ → List ℚ → List ℚ → List (String × ℚ)
  | hb :: hbs, lb :: lbs, hp :: hps, lp :: lps =>
    let row : String × ℚ :=
      -- Skip if predictions are the same (inactive)
      if hp = lp then ("none", 0)
      else if current_price > hb then
        ("short", if current_price ≠ 0 then (hp - current_price) / |current_price| * 100 else 0)
      else if current_price < lb then
        ("long", if current_price ≠ 0 then (lp - current_price) / |current_price| * 100 else 0)
      else ("none", 0)
    row :: signal_rows current_price hbs lbs hps lps
  | _, _, _, _ => []

/-- `count_signal_levels`: `(long_count, short_count, tf_sides, margins)`. -/
def count_signal_levels (current_price : ℚ)
    (high_bounds low_bounds high_predictions low_predictions : List ℚ) :
    ℕ × ℕ × List String × List ℚ :=
  let rows := signal_rows current_price high_bounds low_bounds high_predictions low_predictions
  let tf_sides := rows.map Prod.fst
  let margins := rows.map Prod.snd
  ((tf_sides.filter (fun s => s = "long")).length,
   (tf_sides.filter (fun s => s = "short")).length,
   tf_sides, margins)

/-! ## Trainer weight adjustment (from `trainer/training_engine.py`,
`adjust_weights`, the per-position weight-adjust block for the matched
patterns; `tolerance = 0.1`). -/

def tolerance : ℚ := 1/10

/-- The high-channel weight update for one matched pattern
(`adjust_weights`, "High weight" branch). -/
def update_high_weight (hw h_pred actual_high : ℚ) : ℚ :=
  if h_pred ≠ 0 then
    if actual_high > h_pred + |h_pred * tolerance| then
      min WEIGHT_MAX (hw + WEIGHT_ADJUST_INCREMENT)
    else if actual_high < h_pred - |h_pred * tolerance| then
      max 0 (hw - WEIGHT_ADJUST_INCREMENT)
    else hw
  else hw

/-- The low-channel weight update for one matched pattern
(`adjust_weights`, "Low weight" branch). -/
def update_low_weight (lw l_pred actual_low : ℚ) : ℚ :=
  if l_pred ≠ 0 then
    if actual_low < l_pred - |l_pred * tolerance| then
      min WEIGHT_MAX (lw + WEIGHT_ADJUST_INCREMENT)
    else if actual_low > l_pred + |l_pred * tolerance| then
      max 0 (lw - WEIGHT_ADJUST_INCREMENT)
    else lw
  else lw

/-- The close-channel weight update for one matched pattern
(`adjust_weights`, "Close weight" branch). -/
def update_close_weight (cw c_pred actual_close : ℚ) : ℚ :=
  if c_pred ≠ 0 then
    if actual_close > c_pred + |c_pred * tolerance| then
      min WEIGHT_MAX (cw + WEIGHT_ADJUST_INCREMENT)
    else if actual_close < c_pred - |c_pred * tolerance| then
      max WEIGHT_MIN_NEUTRAL (cw - WEIGHT_ADJUST_INCREMENT)
    else cw
  else cw

/-- The `for idx in matches` weight-adjust loop of `adjust_weights`
(lines 192-222), acting on the three weight arrays. -/
def adjust_weights_block (h_pred l_pred c_pred actual_high actual_low actual_close : ℚ)
    (match_idxs : List ℕ) (weights_high weights_low weights : List ℚ) :
    List ℚ × List ℚ × List ℚ :=
  match_idxs.foldl
    (fun (w : List ℚ × List ℚ × List ℚ) idx =>
      let wh := if idx < w.1.length then
          w.1.set idx (update_high_weight (w.1.getD idx 0) h_pred actual_high)
        else w.1
      let wl := if idx < w.2.1.length then
          w.2.1.set idx (update_low_weight (w.2.1.getD idx 0) l_pred actual_low)
        else w.2.1
      let wc := if idx < w.2.2.length then
          w.2.2.set idx (update_close_weight (w.2.2.getD idx 0) c_pred actual_close)
        else w.2.2
      (wh, wl, wc))
    (weights_high, weights_low, weights)

/-! ## Pattern memory and its on-disk text format (from `models/memory.py`)

Python strings are modelled as `List Char` (`PyStr`).  The rendering of
a float by `str()` and the parsing by `float()` are parameters
`render : ℚ → PyStr` and `parse : PyStr → Option ℚ` of the
serialisation functions; Python guarantees `float(str(x)) == x` and
that the rendering is a non-empty token of number characters, which the
round-trip theorem takes as hypotheses on the values involved. -/

abbrev PyStr := List Char

structure PatternMemory where
  patterns : List (List ℚ) := []
  high_diffs : List ℚ := []
  low_diffs : List ℚ := []
  weights : List ℚ := []
  weights_high : List ℚ := []
  weights_low : List ℚ := []
  threshold : ℚ := 1
  deriving DecidableEq

/-- Python `str.strip()`. -/
def py_strip (s : PyStr) : PyStr :=
  ((s.dropWhile Char.isWhitespace).reverse.dropWhile Char.isWhitespace).reverse

/-- Python `split("~")` (the `PATTERN_SEPARATOR`). -/
def split_tilde : PyStr → List PyStr
  | [] => [[]]
  | c :: cs =>
    if c = '~' then [] :: split_tilde cs
    else
      match split_tilde cs with
      | [] => [[c]]
      | t :: ts => (c :: t) :: ts

/-- Python `split("{}")` (the two-character `FIELD_SEPARATOR`),
scanning left to right for non-overlapping occurrences. -/
def split_brace : PyStr → List PyStr
  | [] => [[]]
  | [c] => [[c]]
  | c :: c2 :: cs =>
    if c = '{' ∧ c2 = '}' then [] :: split_brace cs
    else
      match split_brace (c2 :: cs) with
      | [] => [[c]]
      | t :: ts => (c :: t) :: ts

/-- Python `split()` with no argument: split on whitespace runs,
dropping empty pieces. -/
def split_ws : PyStr → List PyStr
  | [] => []
  | c :: cs =>
    if c.isWhitespace then split_ws cs
    else
      match cs with
      | [] => [[c]]
      | d :: _ =>
        if d.isWhitespace then [c] :: split_ws cs
        else
          match split_ws cs with
          | [] => [[c]]
          | t :: ts => (c :: t) :: ts

/-- Python `sep.join(strs)` for a one-character separator. -/
def py_join (sep : Char) : List PyStr → PyStr
  | [] => []
  | [t] => t
  | t :: t2 :: ts => t ++ sep :: py_join sep (t2 :: ts)

/-- Python `" ".join(strs)`. -/
def py_join_space (parts : List PyStr) : PyStr :=
  py_join ' ' parts

/-- `memory._parse_floats_space`: parse space-separated floats, skipping
blanks and unparseable tokens. -/
def parse_floats_space (parse : PyStr → Option ℚ) (text : PyStr) : List ℚ :=
  if py_strip text = [] then []
  else
    (split_ws (py_strip text)).foldr
      (fun tok acc =>
        let tok' := py_strip tok
        if tok' = [] then acc
        else
          match parse tok' with
          | some q => q :: acc
          | none => acc)
      []

/-- `memory._safe_float`: parse a single float, `0.0` on failure. -/
def mem_safe_float (parse : PyStr → Option ℚ) (text : PyStr) : ℚ :=
  match parse (py_strip text) with
  | some q => q
  | none => 0

/-- One serialised pattern entry: `candle_str{}high{}low`. -/
def render_entry (render : ℚ → PyStr) (pat : List ℚ) (high low : ℚ) : PyStr :=
  py_join_space (pat.map render) ++
    ('{' :: '}' :: (render high ++ ('{' :: '}' :: render low)))

/-- The entry list of `to_memory_text`: iterates over `patterns`,
reading `high_diffs[i]`/`low_diffs[i]` with a `0.0` fallback when the
parallel list is short (`high_diffs[i] if i < len(high_diffs) else 0.0`). -/
def entries_of (render : ℚ → PyStr) :
    List (List ℚ) → List ℚ → List ℚ → List PyStr
  | [], _, _ => []
  | pat :: ps, hs, ls =>
    render_entry render pat (hs.headD 0) (ls.headD 0) ::
      entries_of render ps hs.tail ls.tail

/-- `PatternMemory.to_memory_text`. -/
def to_memory_text (render : ℚ → PyStr) (m : PatternMemory) : PyStr :=
  py_join '~' (entries_of render m.patterns m.high_diffs m.low_diffs)

/-- The serialised weight files of `TrainerRunner._save_memory`:
`" ".join(str(w) for w in ws)`. -/
def weights_text (render : ℚ → PyStr) (ws : List ℚ) : PyStr :=
  py_join_space (ws.map render)

/-- The parsing loop of `from_memory_text` over the raw pattern strings:
skips blank entries and entries whose candle field parses to nothing. -/
def parse_entries (parse : PyStr → Option ℚ) :
    List PyStr → List (List ℚ) × List ℚ × List ℚ
  | [] => ([], [], [])
  | raw :: rest =>
    let raw' := py_strip raw
    let (ps, hs, ls) := parse_entries parse rest
    if raw' = [] then (ps, hs, ls)
    else
      let fields := split_brace raw'
      let candle_pcts :=
        match fields with
        | [] => []
        | f0 :: _ => parse_floats_space parse f0
      if candle_pcts = [] then (ps, hs, ls)
      else
        (candle_pcts :: ps,
         (match fields.get? 1 with
          | some f1 => mem_safe_float parse f1
          | none => 0) :: hs,
         (match fields.get? 2 with
          | some f2 => mem_safe_float parse f2
          | none => 0) :: ls)

/-- `PatternMemory.from_memory_text`. -/
def from_memory_text (parse : PyStr → Option ℚ)
    (text weights_t weights_high_t weights_low_t : PyStr) (threshold : ℚ) :
    PatternMemory :=
  let stripped := py_strip text
  let raw_patterns := if stripped = [] then [] else split_tilde stripped
  let (ps, hs, ls) := parse_entries parse raw_patterns
  { patterns := ps
    high_diffs := hs
    low_diffs := ls
    weights := parse_floats_space parse weights_t
    weights_high := parse_floats_space parse weights_high_t
    weights_low := parse_floats_space parse weights_low_t
    threshold := threshold }

/-- A rendered number token is non-empty and contains no delimiter of
the on-disk format: no `~`, no braces, no whitespace. -/
def tok_ok (t : PyStr) : Prop :=
  t ≠ [] ∧ ∀ c ∈ t, c ≠ '~' ∧ c ≠ '{' ∧ c ≠ '}' ∧ c.isWhitespace = false

instance (t : PyStr) : Decidable (tok_ok t) := by
  unfold tok_ok; infer_instance

/-- All numbers stored in a memory (the values `str()` is applied to
when serialising it and its weight files). -/
def all_nums (m : PatternMemory) : List ℚ :=
  m.patterns.flatten ++ m.high_diffs ++ m.low_diffs ++
    m.weights ++ m.weights_high ++ m.weights_low

/-! ## Shared concrete fixtures -/

/-- A fresh `TrailingState()` as created by the engine for a new coin. -/
def trailing_initial : TrailingState := {}

/-- Scenario E3 config: `pm_start_pct_no_dca=5`, `trailing_gap_pct=0.5`. -/
def e3_config : TradingConfig := { pm_start_pct_no_dca := 5, trailing_gap_pct := 1/2 }

/-- Scenario E3 position: avg price 100 (qty 1, cost basis 100), no DCA. -/
def e3_position : Position := { entry_price := 100, quantity := 1, cost_basis_usd := 100 }

/-! ## C10 — hard DCA threshold with empty `dca_levels` -/

/-- C10: when the configured `dca_levels` list is empty,
`_get_hard_threshold` returns `-50.0` for every stage. -/
theorem hard_threshold_empty_levels (cfg : TradingConfig) (stage : ℕ)
    (h : cfg.dca_levels = []) : get_hard_threshold cfg stage = -50 := by
  simp [get_hard_threshold, h]

/-- C10 witness: a config with empty `dca_levels`, evaluated at stage 3. -/
theorem hard_threshold_empty_levels_witness :
    ({ dca_levels := [] } : TradingConfig).dca_levels = [] ∧
      get_hard_threshold { dca_levels := [] } 3 = -50 :=
  ⟨rfl, hard_threshold_empty_levels { dca_levels := [] } 3 rfl⟩

/-! ## C8 — entry size has no $0.50 floor -/

/-- C8 counterexample: with the default `start_allocation_pct = 0.005`
and an account value of $10, an entry order for $0.05 is placed —
strictly below the claimed $0.50 floor. -/
theorem entry_size_small_counterexample :
    entry_order {} { long_level := 5, short_level := 0 } 10 = some (1/20) ∧
      ¬ ((1 : ℚ)/2 ≤ 1/20) := by
  refine ⟨?_, by norm_num⟩
  norm_num [entry_order, should_enter, calculate_entry_size,
    DEFAULT_START_ALLOCATION_PCT, DEFAULT_TRADE_START_LEVEL]

/-- C8 (amended): the quote amount of a first entry is exactly
`account_value * start_allocation_pct`; an order is placed only when
that amount is strictly positive — there is no $0.50 floor. -/
theorem entry_size_formula (cfg : TradingConfig) (signal : Signal)
    (account_value s : ℚ) (h : entry_order cfg signal account_value = some s) :
    s = account_value * cfg.start_allocation_pct ∧ 0 < s := by
  unfold entry_order at h
  by_cases h1 : should_enter cfg signal
  · simp only [h1, Bool.not_true, Bool.false_eq_true, if_false] at h
    by_cases h2 : calculate_entry_size cfg account_value ≤ 0
    · simp [h2] at h
    · simp only [h2, if_false] at h
      cases h
      exact ⟨rfl, lt_of_not_le h2⟩
  · simp only [Bool.not_eq_true] at h1
    simp [h1] at h

/-- C8 witness: the default config, a bullish signal and a $10 account. -/
theorem entry_size_formula_witness :
    (1 : ℚ)/20 = 10 * ({} : TradingConfig).start_allocation_pct ∧ (0 : ℚ) < 1/20 :=
  entry_size_formula {} { long_level := 5, short_level := 0 } 10 (1/20)
    (by norm_num [entry_order, should_enter, calculate_entry_size,
      DEFAULT_START_ALLOCATION_PCT, DEFAULT_TRADE_START_LEVEL])

/-! ## C9 — config loading clamps the level but not the percentages -/

/-- C9 counterexample: a settings file with `start_allocation_pct = -5`
loads to a config whose `start_allocation_pct` is `-5`, not clamped
to `0`. -/
theorem config_negative_pct_counterexample :
    (TradingConfig.from_file { start_allocation_pct := .num (-5) }).start_allocation_pct
        = -5 ∧
      ¬ (0 ≤ (TradingConfig.from_file
          { start_allocation_pct := .num (-5) }).start_allocation_pct) := by
  refine ⟨rfl, ?_⟩
  intro h
  have : ((-5 : ℚ)) = (TradingConfig.from_file
      { start_allocation_pct := .num (-5) }).start_allocation_pct := rfl
  rw [← this] at h
  norm_num at h

/-- C9 (amended): for every settings-file input, the loaded
`trade_start_level` lies in `1..7`; the four percentage parameters are
taken as parsed — a numeric raw value passes through unchanged, so
negative percentages are NOT clamped to `0`. -/
theorem config_load_clamps_level (data : RawSettings) :
    (1 ≤ (TradingConfig.from_file data).trade_start_level ∧
      (TradingConfig.from_file data).trade_start_level ≤ 7) ∧
    (∀ q, data.start_allocation_pct = .num q →
      (TradingConfig.from_file data).start_allocation_pct = q) ∧
    (∀ q, data.pm_start_pct_no_dca = .num q →
      (TradingConfig.from_file data).pm_start_pct_no_dca = q) ∧
    (∀ q, data.pm_start_pct_with_dca = .num q →
      (TradingConfig.from_file data).pm_start_pct_with_dca = q) ∧
    (∀ q, data.trailing_gap_pct = .num q →
      (TradingConfig.from_file data).trailing_gap_pct = q) := by
  refine ⟨⟨?_, ?_⟩, ?_, ?_, ?_, ?_⟩
  · simp only [TradingConfig.from_file, clamp]
    omega
  · simp only [TradingConfig.from_file, clamp]
    omega
  all_goals
    intro q hq
    simp only [TradingConfig.from_file, safe_float, hq]

/-- C9 witness: a settings file carrying `-5` for every percentage. -/
theorem config_load_clamps_level_witness :
    (1 ≤ (TradingConfig.from_file
        { start_allocation_pct := .num (-5), pm_start_pct_no_dca := .num (-5),
          pm_start_pct_with_dca := .num (-5),
          trailing_gap_pct := .num (-5) }).trade_start_level ∧
      (TradingConfig.from_file
        { start_allocation_pct := .num (-5), pm_start_pct_no_dca := .num (-5),
          pm_start_pct_with_dca := .num (-5),
          trailing_gap_pct := .num (-5) }).trade_start_level ≤ 7) ∧
    (TradingConfig.from_file
        { start_allocation_pct := .num (-5), pm_start_pct_no_dca := .num (-5),
          pm_start_pct_with_dca := .num (-5),
          trailing_gap_pct := .num (-5) }).start_allocation_pct = -5 := by
  refine ⟨(config_load_clamps_level _).1, ?_⟩
  exact (config_load_clamps_level _).2.1 (-5) rfl

/-! ## C5 — weight adjustment: the low channel is inverted -/

/-- C5 counterexample: a matched pattern with low-channel prediction
`1`, actual low `2` (well above the prediction plus the 10% band) and
weight `1`: the claim says the weight is increased to `1.25`, but
`adjust_weights` decreases it to `0.75`. -/
theorem adjust_weights_low_counterexample :
    (adjust_weights_block 1 1 1 2 2 2 [0] [1] [1] [1]).2.1 = [3/4] ∧
      (adjust_weights_block 1 1 1 2 2 2 [0] [1] [1] [1]).2.1 ≠
        [min WEIGHT_MAX (1 + WEIGHT_ADJUST_INCREMENT)] := by
  constructor <;>
    norm_num [adjust_weights_block, update_high_weight, update_low_weight,
      update_close_weight, WEIGHT_MAX, WEIGHT_ADJUST_INCREMENT, WEIGHT_MIN_NEUTRAL,
      tolerance, abs_of_nonneg]

/-- C5 (amended): for every matched pattern, when the channel's
aggregate prediction is nonzero the high and close channels follow the
claimed rule (actual above `pred + 10%·|pred|` → weight `+0.25` capped
at `2`; actual below `pred − 10%·|pred|` → weight `−0.25` floored at
`0` for high, `−2` for close), while the LOW channel applies the
inverted rule: actual below the band → `+0.25` capped at `2`, actual
above the band → `−0.25` floored at `0`. -/
theorem adjust_weights_channel_rules (hw lw cw hp lp cp ah al ac : ℚ) :
    (hp ≠ 0 → ah > hp + |hp * tolerance| →
      update_high_weight hw hp ah = min WEIGHT_MAX (hw + WEIGHT_ADJUST_INCREMENT)) ∧
    (hp ≠ 0 → ah < hp - |hp * tolerance| →
      update_high_weight hw hp ah = max 0 (hw - WEIGHT_ADJUST_INCREMENT)) ∧
    (cp ≠ 0 → ac > cp + |cp * tolerance| →
      update_close_weight cw cp ac = min WEIGHT_MAX (cw + WEIGHT_ADJUST_INCREMENT)) ∧
    (cp ≠ 0 → ac < cp - |cp * tolerance| →
      update_close_weight cw cp ac = max WEIGHT_MIN_NEUTRAL (cw - WEIGHT_ADJUST_INCREMENT)) ∧
    (lp ≠ 0 → al < lp - |lp * tolerance| →
      update_low_weight lw lp al = min WEIGHT_MAX (lw + WEIGHT_ADJUST_INCREMENT)) ∧
    (lp ≠ 0 → al > lp + |lp * tolerance| →
      update_low_weight lw lp al = max 0 (lw - WEIGHT_ADJUST_INCREMENT)) := by
  refine ⟨?_, ?_, ?_, ?_, ?_, ?_⟩ <;> intro h1 h2
  · rw [update_high_weight, if_pos h1, if_pos h2]
  · have hnot : ¬ (ah > hp + |hp * tolerance|) := by
      have := abs_nonneg (hp * tolerance)
      linarith
    rw [update_high_weight, if_pos h1, if_neg hnot, if_pos h2]
  · rw [update_close_weight, if_pos h1, if_pos h2]
  · have hnot : ¬ (ac > cp + |cp * tolerance|) := by
      have := abs_nonneg (cp * tolerance)
      linarith
    rw [update_close_weight, if_pos h1, if_neg hnot, if_pos h2]
  · rw [update_low_weight, if_pos h1, if_pos h2]
  · have hnot : ¬ (al < lp - |lp * tolerance|) := by
      have := abs_nonneg (lp * tolerance)
      linarith
    rw [update_low_weight, if_pos h1, if_neg hnot, if_pos h2]

/-- C5 witness: concrete values hitting the low-channel "actual below
the band" branch. -/
theorem adjust_weights_channel_rules_witness :
    (1 : ℚ) ≠ 0 ∧ (0 : ℚ) < 1 - |(1 : ℚ) * tolerance| ∧
      update_low_weight 1 1 0 = min WEIGHT_MAX (1 + WEIGHT_ADJUST_INCREMENT) := by
  refine ⟨by norm_num, by norm_num [tolerance, abs_of_nonneg], ?_⟩
  exact (adjust_weights_channel_rules 1 1 1 1 1 1 0 0 0).2.2.2.2.1 (by norm_num)
    (by norm_num [tolerance, abs_of_nonneg])

/-! ## C4 — scenario E3 (trailing exit crossover) -/

/-- C4 counterexample: on the first tick at 105 the trailing line is
floored at the PM start line 105 — it is NOT `104.475` as the claim
states (the candidate `105 · 0.995 = 104.475` is below
`pm_start_line = 105` and is floored). -/
theorem e3_first_tick_counterexample :
    (update_trailing e3_config e3_position trailing_initial 105).line = 105 ∧
      (update_trailing e3_config e3_position trailing_initial 105).line ≠
        104475/1000 := by
  constructor <;>
    norm_num [update_trailing, get_pm_start_line, e3_config, e3_position,
      trailing_initial, Position.avg_price, DEFAULT_PM_START_PCT_WITH_DCA]

/-- C4 (amended): scenario E3 with `pm_start_pct_no_dca=5`,
`trailing_gap_pct=0.5`, avg 100, no DCA; ticks 105, 107, 107.5 give
`active=true` throughout, peaks 105, 107, 107.5 and lines 105 (floored
at the PM start line), 106.465, 106.9625; `should_exit` at the next
tick's price 106, checked against the prior tick's state as the trader
loop does, returns `true`. -/
theorem e3_scenario :
    (trail_states e3_config e3_position trailing_initial [105, 107, 107.5]).map
        (fun s => (s.active, s.peak, s.line)) =
      [(true, 105, 105), (true, 107, 21293/200), (true, 215/2, 8557/80)] ∧
    should_exit
      ((trail_states e3_config e3_position trailing_initial
        [105, 107, 107.5]).getLastD trailing_initial) 106 = true := by
  constructor <;>
    norm_num [trail_states, update_trailing, get_pm_start_line, should_exit,
      e3_config, e3_position, trailing_initial, Position.avg_price,
      DEFAULT_PM_START_PCT_WITH_DCA, List.getLastD]

/-! ## C2, C3 — `should_dca` -/

/-- Characterisation of the boolean component of `should_dca`. -/
lemma should_dca_fst_eq (cfg : TradingConfig) (st : DcaState) (now : ℚ)
    (pos : Position) (price : ℚ) (sig : ℤ) :
    (should_dca cfg st now pos price sig).1 =
      (can_dca_within_rate_limit cfg st now &&
        (decide (pos.pnl_pct price ≤ get_hard_threshold cfg pos.dca_count) ||
          (decide (pos.dca_count < MAX_NEURAL_DCA_STAGES) &&
            (decide (pos.pnl_pct price < 0) &&
              decide (sig ≥ (pos.dca_count : ℤ) + NEURAL_LEVEL_OFFSET))))) := by
  unfold should_dca get_current_stage
  by_cases hc : can_dca_within_rate_limit cfg st now
  · simp only [hc, Bool.not_true, Bool.false_eq_true, if_false, Bool.true_and]
    by_cases h1 : pos.pnl_pct price ≤ get_hard_threshold cfg pos.dca_count
    · simp [h1]
    · simp only [h1, decide_False, Bool.false_or, if_false]
      by_cases h2 : pos.dca_count < MAX_NEURAL_DCA_STAGES
      · by_cases h3 : pos.pnl_pct price < 0
        · by_cases h4 : sig ≥ (pos.dca_count : ℤ) + NEURAL_LEVEL_OFFSET
          · simp [h2, h3, h4]
          · simp [h2, h3, h4]
        · simp [h2, h3]
      · simp [h2]
  · simp only [Bool.not_eq_true'] at hc
    simp [hc]

/-- C2: whenever `should_dca` returns true, the number of recorded DCA
buy timestamps later than the most recent sell and within the trailing
86,400 seconds is strictly below `max_dca_buys_per_24h`; and when that
count reaches `max_dca_buys_per_24h`, `should_dca` returns
`(false, "")`. -/
theorem should_dca_rate_limit (cfg : TradingConfig) (st : DcaState) (now : ℚ)
    (pos : Position) (price : ℚ) (sig : ℤ) :
    ((should_dca cfg st now pos price sig).1 = true →
      (((st.timestamps.filter (fun t =>
          decide (t > st.last_sell) && decide (t ≥ now - DCA_WINDOW_SECONDS))).length : ℤ)
        < cfg.max_dca_buys_per_24h)) ∧
    (cfg.max_dca_buys_per_24h ≤
        ((st.timestamps.filter (fun t =>
          decide (t > st.last_sell) && decide (t ≥ now - DCA_WINDOW_SECONDS))).length : ℤ) →
      should_dca cfg st now pos price sig = (false, "")) := by
  have hwc : window_count st now =
      (st.timestamps.filter (fun t =>
        decide (t > st.last_sell) && decide (t ≥ now - DCA_WINDOW_SECONDS))).length := rfl
  constructor
  · intro h
    rw [should_dca_fst_eq, Bool.and_eq_true] at h
    have := h.1
    rw [can_dca_within_rate_limit, decide_eq_true_eq, hwc] at this
    exact this
  · intro h
    have hc : can_dca_within_rate_limit cfg st now = false := by
      rw [can_dca_within_rate_limit, decide_eq_false_iff_not, not_lt, hwc]
      exact h
    unfold should_dca
    simp [hc]

/-- C2 witness: a fresh rate-limit state admits a hard DCA (count 0 < 2),
and a state with two recent buys is rate-limited to `(false, "")`. -/
theorem should_dca_rate_limit_witness :
    ((((DcaState.mk [] 0).timestamps.filter (fun t =>
        decide (t > (DcaState.mk [] 0).last_sell) &&
          decide (t ≥ 1000000 - DCA_WINDOW_SECONDS))).length : ℤ)
      < ({} : TradingConfig).max_dca_buys_per_24h) ∧
    should_dca {} (DcaState.mk [999999, 999998] 0) 1000000
        { entry_price := 100, quantity := 1, cost_basis_usd := 100 } 90 0 = (false, "") := by
  constructor
  · exact (should_dca_rate_limit {} (DcaState.mk [] 0) 1000000
      { entry_price := 100, quantity := 1, cost_basis_usd := 100 } 90 0).1
      (by norm_num [should_dca, can_dca_within_rate_limit, window_count,
        get_current_stage, get_hard_threshold, Position.pnl_pct, Position.avg_price,
        DCA_WINDOW_SECONDS, DEFAULT_MAX_DCA_BUYS_PER_24H, DEFAULT_DCA_LEVELS,
        MAX_NEURAL_DCA_STAGES, NEURAL_LEVEL_OFFSET, List.cons_ne_nil])
  · exact (should_dca_rate_limit {} (DcaState.mk [999999, 999998] 0) 1000000
      { entry_price := 100, quantity := 1, cost_basis_usd := 100 } 90 0).2
      (by norm_num [DCA_WINDOW_SECONDS, DEFAULT_MAX_DCA_BUYS_PER_24H])

/-- C3: `should_dca` is monotone for valid positions (`quantity ≥ 0`,
`cost_basis_usd ≥ 0`, the `Position.validate` invariants): raising the
long signal and lowering the price both preserve a true result, with the
position and rate-limit state fixed. -/
theorem should_dca_monotone (cfg : TradingConfig) (st : DcaState) (now : ℚ)
    (pos : Position) (price price' : ℚ) (sig sig' : ℤ)
    (hq : 0 ≤ pos.quantity) (hcb : 0 ≤ pos.cost_basis_usd)
    (hp : price' ≤ price) (hs : sig ≤ sig')
    (h : (should_dca cfg st now pos price sig).1 = true) :
    (should_dca cfg st now pos price' sig').1 = true := by
  have havg : 0 ≤ pos.avg_price := by
    simp only [Position.avg_price]
    split_ifs with h0
    · exact le_refl 0
    · exact div_nonneg hcb hq
  have hpnl : pos.pnl_pct price' ≤ pos.pnl_pct price := by
    simp only [Position.pnl_pct]
    split_ifs with h0
    · exact le_refl 0
    · have ha' : 0 < pos.avg_price := lt_of_le_of_ne havg (Ne.symm h0)
      have hdiv : (price' - pos.avg_price) / pos.avg_price ≤
          (price - pos.avg_price) / pos.avg_price :=
        (div_le_div_iff_of_pos_right ha').mpr (sub_le_sub_right hp _)
      exact mul_le_mul_of_nonneg_right hdiv (by norm_num)
  rw [should_dca_fst_eq] at h ⊢
  simp only [Bool.and_eq_true, Bool.or_eq_true, decide_eq_true_eq] at h ⊢
  obtain ⟨hcan, hor⟩ := h
  refine ⟨hcan, ?_⟩
  rcases hor with hhard | ⟨hst, hneg, hsig⟩
  · exact Or.inl (le_trans hpnl hhard)
  · exact Or.inr ⟨hst, lt_of_le_of_lt hpnl hneg, le_trans hsig hs⟩

/-- C3 witness: a position at avg 100, true at price 90 / signal 0,
stays true at the lower price 85 and higher signal 2. -/
theorem should_dca_monotone_witness :
    (should_dca {} (DcaState.mk [] 0) 1000000
      { entry_price := 100, quantity := 1, cost_basis_usd := 100 } 85 2).1 = true :=
  should_dca_monotone {} (DcaState.mk [] 0) 1000000
    { entry_price := 100, quantity := 1, cost_basis_usd := 100 } 90 85 0 2
    (by norm_num) (by norm_num) (by norm_num) (by norm_num)
    (by norm_num [should_dca, can_dca_within_rate_limit, window_count,
      get_current_stage, get_hard_threshold, Position.pnl_pct, Position.avg_price,
      DCA_WINDOW_SECONDS, DEFAULT_MAX_DCA_BUYS_PER_24H, DEFAULT_DCA_LEVELS,
      MAX_NEURAL_DCA_STAGES, NEURAL_LEVEL_OFFSET, List.cons_ne_nil])

/-! ## C1 — the trailing line ratchets -/

/-- One `update_trailing` call never clears the `active` flag. -/
lemma update_trailing_active_mono (cfg : TradingConfig) (pos : Position)
    (s : TrailingState) (p : ℚ) (h : s.active = true) :
    (update_trailing cfg pos s p).active = true := by
  obtain ⟨a, pk, ln, wa⟩ := s
  cases a
  · simp at h
  · simp only [update_trailing, Bool.not_true, Bool.false_eq_true, if_false]
    split_ifs <;> rfl

/-- Once active, one `update_trailing` call never lowers the line. -/
lemma update_trailing_line_le (cfg : TradingConfig) (pos : Position)
    (s : TrailingState) (p : ℚ) (h : s.active = true) :
    s.line ≤ (update_trailing cfg pos s p).line := by
  obtain ⟨a, pk, ln, wa⟩ := s
  cases a
  · simp at h
  · simp only [update_trailing, Bool.not_true, Bool.false_eq_true, if_false]
    split_ifs <;> simp_all <;> linarith

/-- After any `update_trailing` call that leaves the state active, the
line is at least the PM start line. -/
lemma update_trailing_base_le (cfg : TradingConfig) (pos : Position)
    (s : TrailingState) (p : ℚ)
    (h : (update_trailing cfg pos s p).active = true) :
    get_pm_start_line cfg pos ≤ (update_trailing cfg pos s p).line := by
  obtain ⟨a, pk, ln, wa⟩ := s
  cases a
  · simp only [update_trailing, Bool.not_false, if_true] at h ⊢
    split_ifs at h ⊢ <;> simp_all
  · simp only [update_trailing, Bool.not_true, Bool.false_eq_true, if_false] at h ⊢
    split_ifs at h ⊢ <;> simp_all

/-- C1: for a fixed position (so a constant `pm_start_line`) and any
price sequence, every state emitted by `update_trailing` that is active
has `line ≥ pm_start_line`, and along successive calls an active state's
line never decreases (and activity persists). -/
theorem trailing_line_ratchet (cfg : TradingConfig) (pos : Position)
    (s : TrailingState) (ps : List ℚ) :
    (∀ t ∈ trail_states cfg pos s ps, t.active = true →
      get_pm_start_line cfg pos ≤ t.line) ∧
    List.Chain' (fun a b => a.active = true → a.line ≤ b.line ∧ b.active = true)
      (trail_states cfg pos s ps) := by
  induction ps generalizing s with
  | nil => exact ⟨fun t ht => absurd ht (List.not_mem_nil t), List.chain'_nil⟩
  | cons p ps ih =>
    obtain ⟨ih1, ih2⟩ := ih (update_trailing cfg pos s p)
    constructor
    · intro t ht
      rcases List.mem_cons.mp ht with rfl | hmem
      · exact update_trailing_base_le cfg pos s p
      · exact ih1 t hmem
    · refine List.chain'_cons'.mpr ⟨?_, ih2⟩
      intro b hb
      cases ps with
      | nil => cases hb
      | cons q qs =>
        simp only [trail_states, List.head?_cons, Option.mem_def,
          Option.some.injEq] at hb
        subst hb
        intro hact
        exact ⟨update_trailing_line_le cfg pos _ q hact,
          update_trailing_active_mono cfg pos _ q hact⟩

/-- C1 witness: scenario E3's first tick — the produced state is active
and its line sits at the PM start line. -/
theorem trailing_line_ratchet_witness :
    get_pm_start_line e3_config e3_position ≤
      (update_trailing e3_config e3_position trailing_initial 105).line :=
  (trailing_line_ratchet e3_config e3_position trailing_initial [105]).1
    (update_trailing e3_config e3_position trailing_initial 105)
    (by simp [trail_states])
    (by norm_num [update_trailing, get_pm_start_line, e3_config, e3_position,
      trailing_initial, Position.avg_price, DEFAULT_PM_START_PCT_WITH_DCA])

/-! ## C7 — scenario E4 (level counting with sentinels) -/

/-- A timeframe whose predicted high equals its predicted low yields the
side `"none"` in `count_signal_levels`, at any position. -/
lemma signal_rows_get_none (price : ℚ) :
    ∀ (hbs lbs hps lps : List ℚ) (i : ℕ),
      i < hbs.length → i < lbs.length → i < hps.length → i < lps.length →
      hps.get? i = lps.get? i →
      ((signal_rows price hbs lbs hps lps).map Prod.fst).get? i = some "none" := by
  intro hbs
  induction hbs with
  | nil => intro lbs hps lps i h1; simp at h1
  | cons hb hbs ih =>
    intro lbs hps lps i h1 h2 h3 h4 heq
    cases lbs with
    | nil => simp at h2
    | cons lb lbs =>
      cases hps with
      | nil => simp at h3
      | cons hp hps =>
        cases lps with
        | nil => simp at h4
        | cons lp lps =>
          cases i with
          | zero =>
            simp only [List.get?_cons_zero, Option.some.injEq] at heq
            simp [signal_rows, heq]
          | succ i =>
            simp only [signal_rows, List.map_cons, List.get?]
            exact ih lbs hps lps i (by simpa using h1) (by simpa using h2)
              (by simpa using h3) (by simpa using h4) (by simpa using heq)

/-- C7: scenario E4 — with 3 active timeframes (low bounds 95, 93, 90,
distinct predictions) and 4 inactive sentinel timeframes, price 91
yields `long_level = 2`; with active high bounds 110, 112, 120 and 4
inactive sentinels, price 115 yields `short_level = 2`; and in general a
timeframe whose predicted high equals its predicted low is counted as
neither long nor short. -/
theorem count_signal_levels_e4 :
    (count_signal_levels 91
      [200, 200, 200, SENTINEL_HIGH, SENTINEL_HIGH, SENTINEL_HIGH, SENTINEL_HIGH]
      [95, 93, 90, SENTINEL_LOW, SENTINEL_LOW, SENTINEL_LOW, SENTINEL_LOW]
      [106, 106, 106, 100, 100, 100, 100]
      [95, 93, 90, 100, 100, 100, 100]).1 = 2 ∧
    (count_signal_levels 115
      [110, 112, 120, SENTINEL_HIGH, SENTINEL_HIGH, SENTINEL_HIGH, SENTINEL_HIGH]
      [50, 50, 50, SENTINEL_LOW, SENTINEL_LOW, SENTINEL_LOW, SENTINEL_LOW]
      [110, 112, 120, 100, 100, 100, 100]
      [50, 50, 50, 100, 100, 100, 100]).2.1 = 2 ∧
    (∀ (price : ℚ) (hbs lbs hps lps : List ℚ) (i : ℕ),
      i < hbs.length → i < lbs.length → i < hps.length → i < lps.length →
      hps.get? i = lps.get? i →
      ((count_signal_levels price hbs lbs hps lps).2.2.1).get? i = some "none") := by
  refine ⟨?_, ?_, ?_⟩
  · norm_num [count_signal_levels, signal_rows, SENTINEL_HIGH, SENTINEL_LOW, abs_of_nonneg]
    decide
  · norm_num [count_signal_levels, signal_rows, SENTINEL_HIGH, SENTINEL_LOW, abs_of_nonneg]
    decide
  · intro price hbs lbs hps lps i h1 h2 h3 h4 heq
    exact signal_rows_get_none price hbs lbs hps lps i h1 h2 h3 h4 heq

/-- C7 witness: a single timeframe with equal high/low predictions is
classified `"none"`. -/
theorem count_signal_levels_e4_witness :
    ((count_signal_levels 1 [5] [5] [7] [7]).2.2.1).get? 0 = some "none" :=
  count_signal_levels_e4.2.2 1 [5] [5] [7] [7] 0 (by decide) (by decide)
    (by decide) (by decide) rfl

/-! ### C6 helper lemmas -/

lemma dropWhile_eq_self_of_head (p : Char → Bool) (s : PyStr)
    (h : ∀ c ∈ s.head?, p c = false) : s.dropWhile p = s := by
  cases s with
  | nil => rfl
  | cons c cs =>
    have := h c rfl
    simp [List.dropWhile_cons, this]

lemma py_strip_eq_self (s : PyStr)
    (h1 : ∀ c ∈ s.head?, c.isWhitespace = false)
    (h2 : ∀ c ∈ s.getLast?, c.isWhitespace = false) : py_strip s = s := by
  unfold py_strip
  rw [dropWhile_eq_self_of_head _ _ h1]
  rw [dropWhile_eq_self_of_head _ _ (by
    intro c hc
    rw [List.head?_reverse] at hc
    exact h2 c hc)]
  exact List.reverse_reverse s

lemma py_join_ne_nil (sep : Char) (t : PyStr) (ts : List PyStr) (ht : t ≠ []) :
    py_join sep (t :: ts) ≠ [] := by
  cases ts with
  | nil => simpa [py_join]
  | cons t2 ts =>
    cases t with
    | nil => exact absurd rfl ht
    | cons c cs => simp [py_join]

lemma py_join_head? (sep : Char) (t : PyStr) (ts : List PyStr) (ht : t ≠ []) :
    (py_join sep (t :: ts)).head? = t.head? := by
  cases ts with
  | nil => rfl
  | cons t2 ts =>
    cases t with
    | nil => exact absurd rfl ht
    | cons c cs => rfl

lemma py_join_getLast? (sep : Char) :
    ∀ (ts : List PyStr) (t : PyStr), t ≠ [] → (∀ u ∈ ts, u ≠ []) →
      ∃ u ∈ t :: ts, (py_join sep (t :: ts)).getLast? = u.getLast?
  | [], t, _, _ => ⟨t, by simp [py_join]⟩
  | t2 :: ts, t, ht, hts => by
    obtain ⟨u, hu, heq⟩ := py_join_getLast? sep ts t2 (hts t2 (by simp))
      (fun v hv => hts v (by simp [hv]))
    refine ⟨u, by simp [List.mem_cons] at hu ⊢; tauto, ?_⟩
    have h2 : py_join sep (t2 :: ts) ≠ [] := py_join_ne_nil sep t2 ts (hts t2 (by simp))
    calc (py_join sep (t :: t2 :: ts)).getLast?
        = (t ++ sep :: py_join sep (t2 :: ts)).getLast? := rfl
      _ = (sep :: py_join sep (t2 :: ts)).getLast? :=
          List.getLast?_append_of_ne_nil t (by simp)
      _ = (py_join sep (t2 :: ts)).getLast? := by
          cases hpj : py_join sep (t2 :: ts) with
          | nil => exact absurd hpj h2
          | cons x xs => simp [List.getLast?_cons_cons]
      _ = u.getLast? := heq

lemma mem_py_join (sep : Char) :
    ∀ (ts : List PyStr) (c : Char), c ∈ py_join sep ts →
      c = sep ∨ ∃ t ∈ ts, c ∈ t
  | [], c, hc => by simp [py_join] at hc
  | [t], c, hc => Or.inr ⟨t, by simp, by simpa [py_join] using hc⟩
  | t :: t2 :: ts, c, hc => by
    simp only [py_join, List.mem_append, List.mem_cons] at hc
    rcases hc with h | h | h
    · exact Or.inr ⟨t, by simp, h⟩
    · exact Or.inl h
    · rcases mem_py_join sep (t2 :: ts) c h with h' | ⟨u, hu, hcu⟩
      · exact Or.inl h'
      · exact Or.inr ⟨u, by simp [List.mem_cons] at hu ⊢; tauto, hcu⟩

lemma split_tilde_cons (c : Char) (cs : PyStr) :
    split_tilde (c :: cs) =
      if c = '~' then [] :: split_tilde cs
      else match split_tilde cs with
        | [] => [[c]]
        | t :: ts => (c :: t) :: ts := rfl

lemma split_tilde_append (rest : PyStr) :
    ∀ tok : PyStr, '~' ∉ tok →
      split_tilde (tok ++ '~' :: rest) = tok :: split_tilde rest
  | [], _ => by simp [split_tilde]
  | c :: cs, h => by
    have hc : ¬ (c = '~') := fun hc => h (hc ▸ List.mem_cons_self c cs)
    have ih := split_tilde_append rest cs (fun hm => h (List.mem_cons_of_mem c hm))
    rw [List.cons_append, split_tilde_cons, if_neg hc, ih]

lemma split_tilde_no_sep : ∀ tok : PyStr, '~' ∉ tok → split_tilde tok = [tok]
  | [], _ => rfl
  | c :: cs, h => by
    have hc : ¬ (c = '~') := fun hc => h (hc ▸ List.mem_cons_self c cs)
    have ih := split_tilde_no_sep cs (fun hm => h (List.mem_cons_of_mem c hm))
    rw [split_tilde_cons, if_neg hc, ih]

lemma split_brace_cons₂ (c c2 : Char) (cs : PyStr) :
    split_brace (c :: c2 :: cs) =
      if c = '{' ∧ c2 = '}' then [] :: split_brace cs
      else match split_brace (c2 :: cs) with
        | [] => [[c]]
        | t :: ts => (c :: t) :: ts := rfl

lemma split_brace_append (rest : PyStr) :
    ∀ tok : PyStr, (∀ c ∈ tok, c ≠ '{' ∧ c ≠ '}') →
      split_brace (tok ++ '{' :: '}' :: rest) = tok :: split_brace rest
  | [], _ => by simp [split_brace]
  | [c], h => by
    have hc := (h c (by simp)).1
    simp [split_brace, hc]
  | c :: c2 :: cs, h => by
    have hc := (h c (by simp)).1
    have ih := split_brace_append rest (c2 :: cs)
      (fun d hd => h d (List.mem_cons_of_mem c hd))
    show split_brace (c :: c2 :: (cs ++ '{' :: '}' :: rest)) =
      (c :: c2 :: cs) :: split_brace rest
    have ih' : split_brace (c2 :: (cs ++ '{' :: '}' :: rest)) =
        (c2 :: cs) :: split_brace rest := ih
    rw [split_brace_cons₂, if_neg (by simp [hc]), ih']

lemma split_brace_no_sep : ∀ tok : PyStr, (∀ c ∈ tok, c ≠ '{' ∧ c ≠ '}') →
      split_brace tok = [tok]
  | [], _ => rfl
  | [c], _ => rfl
  | c :: c2 :: cs, h => by
    have hc := (h c (by simp)).1
    have ih := split_brace_no_sep (c2 :: cs) (fun d hd => h d (List.mem_cons_of_mem c hd))
    rw [split_brace_cons₂, if_neg (by simp [hc]), ih]


lemma mem_of_mem_head?' {α : Type} {c : α} {s : List α} (hc : c ∈ s.head?) : c ∈ s := by
  rw [List.eq_cons_of_mem_head? hc]
  exact List.mem_cons_self c s.tail

lemma mem_of_mem_getLast?' {α : Type} {c : α} {s : List α} (hc : c ∈ s.getLast?) : c ∈ s := by
  obtain ⟨h, rfl⟩ := List.mem_getLast?_eq_getLast hc
  exact List.getLast_mem h

lemma py_strip_eq_self_of_no_ws (s : PyStr)
    (h : ∀ c ∈ s, c.isWhitespace = false) : py_strip s = s :=
  py_strip_eq_self s (fun c hc => h c (mem_of_mem_head?' hc))
    (fun c hc => h c (mem_of_mem_getLast?' hc))

lemma tok_ok_no_ws {t : PyStr} (h : tok_ok t) : ∀ c ∈ t, c.isWhitespace = false :=
  fun c hc => (h.2 c hc).2.2.2

lemma split_ws_ws_head (rest : PyStr) (c : Char) (h : c.isWhitespace = true) :
    split_ws (c :: rest) = split_ws rest := by
  simp [split_ws, h]

lemma split_ws_cons_cons (c d : Char) (cs : PyStr) :
    split_ws (c :: d :: cs) =
      if c.isWhitespace then split_ws (d :: cs)
      else if d.isWhitespace then [c] :: split_ws (d :: cs)
      else match split_ws (d :: cs) with
        | [] => [[c]]
        | t :: ts => (c :: t) :: ts := rfl

lemma split_ws_no_ws : ∀ tok : PyStr, tok ≠ [] →
    (∀ c ∈ tok, c.isWhitespace = false) → split_ws tok = [tok]
  | [], h0, _ => absurd rfl h0
  | [c], _, h => by simp [split_ws, h c (by simp)]
  | c :: d :: cs, _, h => by
    have hc := h c (by simp)
    have hd := h d (by simp)
    have ih := split_ws_no_ws (d :: cs) (by simp)
      (fun x hx => h x (List.mem_cons_of_mem c hx))
    rw [split_ws_cons_cons, if_neg (by simp [hc]), if_neg (by simp [hd]), ih]

lemma split_ws_append (rest : PyStr) : ∀ tok : PyStr, tok ≠ [] →
    (∀ c ∈ tok, c.isWhitespace = false) →
    split_ws (tok ++ ' ' :: rest) = tok :: split_ws rest
  | [], h0, _ => absurd rfl h0
  | [c], _, h => by
    have hc := h c (by simp)
    show split_ws (c :: ' ' :: rest) = [c] :: split_ws rest
    rw [split_ws_cons_cons, if_neg (by simp [hc]), if_pos (by decide),
      split_ws_ws_head rest ' ' (by decide)]
  | c :: d :: cs, _, h => by
    have hc := h c (by simp)
    have hd := h d (by simp)
    have ih := split_ws_append rest (d :: cs) (by simp)
      (fun x hx => h x (List.mem_cons_of_mem c hx))
    show split_ws (c :: d :: (cs ++ ' ' :: rest)) = (c :: d :: cs) :: split_ws rest
    have ih' : split_ws (d :: (cs ++ ' ' :: rest)) = (d :: cs) :: split_ws rest := ih
    rw [split_ws_cons_cons, if_neg (by simp [hc]), if_neg (by simp [hd]), ih']

lemma split_ws_join : ∀ toks : List PyStr,
    (∀ t ∈ toks, t ≠ [] ∧ ∀ c ∈ t, c.isWhitespace = false) →
    split_ws (py_join ' ' toks) = toks
  | [], _ => rfl
  | [t], h => by
    obtain ⟨h1, h2⟩ := h t (by simp)
    show split_ws t = [t]
    exact split_ws_no_ws t h1 h2
  | t :: t2 :: ts, h => by
    obtain ⟨h1, h2⟩ := h t (by simp)
    have ih := split_ws_join (t2 :: ts) (fun u hu => h u (List.mem_cons_of_mem t hu))
    show split_ws (t ++ ' ' :: py_join ' ' (t2 :: ts)) = t :: t2 :: ts
    rw [split_ws_append _ t h1 h2, ih]


/-- The guarantees Python gives for `str`/`float` on the finite floats a
memory holds: the rendering is a delimiter-free token and parses back to
the same value. -/
def num_ok (render : ℚ → PyStr) (parse : PyStr → Option ℚ) (q : ℚ) : Prop :=
  tok_ok (render q) ∧ parse (render q) = some q

instance (render : ℚ → PyStr) (parse : PyStr → Option ℚ) (q : ℚ) :
    Decidable (num_ok render parse q) := by
  unfold num_ok
  infer_instance

lemma parse_floats_space_fold (parse : PyStr → Option ℚ) (render : ℚ → PyStr) :
    ∀ qs : List ℚ, (∀ q ∈ qs, num_ok render parse q) →
      List.foldr
        (fun tok acc =>
          let tok' := py_strip tok
          if tok' = [] then acc
          else
            match parse tok' with
            | some q => q :: acc
            | none => acc)
        [] (qs.map render) = qs
  | [], _ => rfl
  | q :: qs, h => by
    have hq := h q (by simp)
    have ih := parse_floats_space_fold parse render qs
      (fun x hx => h x (List.mem_cons_of_mem q hx))
    have hstrip : py_strip (render q) = render q :=
      py_strip_eq_self_of_no_ws _ (tok_ok_no_ws hq.1)
    simp only [List.map_cons, List.foldr_cons, ih, hstrip]
    rw [if_neg hq.1.1, hq.2]

lemma parse_floats_space_join (parse : PyStr → Option ℚ) (render : ℚ → PyStr)
    (qs : List ℚ) (h : ∀ q ∈ qs, num_ok render parse q) :
    parse_floats_space parse (py_join_space (qs.map render)) = qs := by
  cases qs with
  | nil => simp [parse_floats_space, py_join_space, py_join, py_strip]
  | cons q qs' =>
    have hq := h q (by simp)
    have htoks : ∀ t ∈ (render q :: qs'.map render), t ≠ [] ∧
        ∀ c ∈ t, c.isWhitespace = false := by
      intro t ht
      rcases List.mem_cons.mp ht with rfl | ht'
      · exact ⟨hq.1.1, tok_ok_no_ws hq.1⟩
      · obtain ⟨x, hx, rfl⟩ := List.mem_map.mp ht'
        have hx' := h x (List.mem_cons_of_mem q hx)
        exact ⟨hx'.1.1, tok_ok_no_ws hx'.1⟩
    have hjn : py_join ' ' (render q :: qs'.map render) ≠ [] :=
      py_join_ne_nil ' ' _ _ hq.1.1
    have hstrip : py_strip (py_join ' ' (render q :: qs'.map render)) =
        py_join ' ' (render q :: qs'.map render) := by
      apply py_strip_eq_self
      · intro c hc
        rw [py_join_head? ' ' _ _ hq.1.1] at hc
        exact tok_ok_no_ws hq.1 c (mem_of_mem_head?' hc)
      · intro c hc
        obtain ⟨u, hu, heq⟩ := py_join_getLast? ' ' (qs'.map render) (render q)
          hq.1.1 (fun v hv => ((htoks v (List.mem_cons_of_mem _ hv))).1)
        rw [heq] at hc
        exact (htoks u hu).2 c (mem_of_mem_getLast?' hc)
    show parse_floats_space parse (py_join ' ' (render q :: qs'.map render)) = q :: qs'
    rw [parse_floats_space, hstrip, if_neg hjn,
      split_ws_join _ htoks]
    exact parse_floats_space_fold parse render (q :: qs') h

lemma mem_safe_float_render (parse : PyStr → Option ℚ) (render : ℚ → PyStr)
    (q : ℚ) (h : num_ok render parse q) :
    mem_safe_float parse (render q) = q := by
  rw [mem_safe_float, py_strip_eq_self_of_no_ws _ (tok_ok_no_ws h.1), h.2]




lemma getLast?_cons_of_ne_nil {α : Type} (a : α) {l : List α} (h : l ≠ []) :
    (a :: l).getLast? = l.getLast? := by
  cases l with
  | nil => exact absurd rfl h
  | cons b bs => exact List.getLast?_cons_cons

lemma join_space_chars (render : ℚ → PyStr) (pat : List ℚ)
    (c : Char) (hc : c ∈ py_join_space (pat.map render)) :
    c = ' ' ∨ ∃ q ∈ pat, c ∈ render q := by
  rcases mem_py_join ' ' (pat.map render) c hc with h | ⟨t, ht, hct⟩
  · exact Or.inl h
  · obtain ⟨q, hq, rfl⟩ := List.mem_map.mp ht
    exact Or.inr ⟨q, hq, hct⟩

lemma split_brace_entry (render : ℚ → PyStr) (pat : List ℚ) (h0 l0 : ℚ)
    (hpat : ∀ q ∈ pat, tok_ok (render q))
    (hh : tok_ok (render h0)) (hl : tok_ok (render l0)) :
    split_brace (render_entry render pat h0 l0) =
      [py_join_space (pat.map render), render h0, render l0] := by
  have hjoin_nb : ∀ c ∈ py_join_space (pat.map render), c ≠ '{' ∧ c ≠ '}' := by
    intro c hc
    rcases join_space_chars render pat c hc with rfl | ⟨q, hq, hcq⟩
    · exact ⟨by decide, by decide⟩
    · exact ⟨((hpat q hq).2 c hcq).2.1, ((hpat q hq).2 c hcq).2.2.1⟩
  have hh_nb : ∀ c ∈ render h0, c ≠ '{' ∧ c ≠ '}' :=
    fun c hc => ⟨(hh.2 c hc).2.1, (hh.2 c hc).2.2.1⟩
  have hl_nb : ∀ c ∈ render l0, c ≠ '{' ∧ c ≠ '}' :=
    fun c hc => ⟨(hl.2 c hc).2.1, (hl.2 c hc).2.2.1⟩
  rw [render_entry, split_brace_append _ _ hjoin_nb, split_brace_append _ _ hh_nb,
    split_brace_no_sep _ hl_nb]

lemma render_entry_ne_nil (render : ℚ → PyStr) (pat : List ℚ) (h0 l0 : ℚ) :
    render_entry render pat h0 l0 ≠ [] := by
  rw [render_entry]
  simp

lemma render_entry_getLast? (render : ℚ → PyStr) (pat : List ℚ) (h0 l0 : ℚ)
    (hl : render l0 ≠ []) :
    (render_entry render pat h0 l0).getLast? = (render l0).getLast? := by
  rw [render_entry,
    List.getLast?_append_of_ne_nil _ (by simp),
    getLast?_cons_of_ne_nil '{' (by simp),
    getLast?_cons_of_ne_nil '}' (by simp),
    List.getLast?_append_of_ne_nil _ (by simp),
    getLast?_cons_of_ne_nil '{' (by simp),
    getLast?_cons_of_ne_nil '}' hl]

lemma render_entry_head? (render : ℚ → PyStr) (q0 : ℚ) (pat : List ℚ) (h0 l0 : ℚ)
    (hq0 : render q0 ≠ []) :
    (render_entry render (q0 :: pat) h0 l0).head? = (render q0).head? := by
  rw [render_entry, py_join_space, List.map_cons,
    List.head?_append_of_ne_nil _ (py_join_ne_nil ' ' _ _ hq0),
    py_join_head? ' ' _ _ hq0]

lemma py_strip_render_entry (render : ℚ → PyStr) (pat : List ℚ) (h0 l0 : ℚ)
    (hpat_ne : pat ≠ [])
    (hpat : ∀ q ∈ pat, tok_ok (render q))
    (hl : tok_ok (render l0)) :
    py_strip (render_entry render pat h0 l0) = render_entry render pat h0 l0 := by
  cases pat with
  | nil => exact absurd rfl hpat_ne
  | cons q0 pat' =>
    apply py_strip_eq_self
    · intro c hc
      rw [render_entry_head? render q0 pat' h0 l0 (hpat q0 (by simp)).1] at hc
      exact tok_ok_no_ws (hpat q0 (by simp)) c (mem_of_mem_head?' hc)
    · intro c hc
      rw [render_entry_getLast? render _ h0 l0 hl.1] at hc
      exact tok_ok_no_ws hl c (mem_of_mem_getLast?' hc)

lemma tilde_not_mem_render_entry (render : ℚ → PyStr) (pat : List ℚ) (h0 l0 : ℚ)
    (hpat : ∀ q ∈ pat, tok_ok (render q))
    (hh : tok_ok (render h0)) (hl : tok_ok (render l0)) :
    '~' ∉ render_entry render pat h0 l0 := by
  intro hmem
  rw [render_entry] at hmem
  rcases List.mem_append.mp hmem with hj | hx
  · rcases join_space_chars render pat '~' hj with h | ⟨q, hq, hcq⟩
    · exact absurd h (by decide)
    · exact absurd rfl ((hpat q hq).2 '~' hcq).1
  · rcases List.mem_cons.mp hx with h1 | hx
    · exact absurd h1 (by decide)
    rcases List.mem_cons.mp hx with h2 | hx
    · exact absurd h2 (by decide)
    rcases List.mem_append.mp hx with hh' | hx
    · exact absurd rfl (hh.2 '~' hh').1
    rcases List.mem_cons.mp hx with h3 | hx
    · exact absurd h3 (by decide)
    rcases List.mem_cons.mp hx with h4 | hl'
    · exact absurd h4 (by decide)
    · exact absurd rfl (hl.2 '~' hl').1


lemma mem_entries_of (render : ℚ → PyStr) :
    ∀ (pats : List (List ℚ)) (hs ls : List ℚ),
      hs.length = pats.length → ls.length = pats.length →
      ∀ u ∈ entries_of render pats hs ls,
        ∃ p h l, p ∈ pats ∧ h ∈ hs ∧ l ∈ ls ∧ u = render_entry render p h l
  | [], _, _, _, _, u, hu => by simp [entries_of] at hu
  | pat :: pats', hs, ls, hlh, hll, u, hu => by
    cases hs with
    | nil => simp at hlh
    | cons h0 hs' =>
      cases ls with
      | nil => simp at hll
      | cons l0 ls' =>
        rcases List.mem_cons.mp hu with rfl | hu'
        · exact ⟨pat, h0, l0, by simp, by simp, by simp, rfl⟩
        · obtain ⟨p, h, l, hp, hh, hl, heq⟩ := mem_entries_of render pats' hs' ls'
            (by simpa using hlh) (by simpa using hll) u hu'
          exact ⟨p, h, l, List.mem_cons_of_mem _ hp, List.mem_cons_of_mem _ hh,
            List.mem_cons_of_mem _ hl, heq⟩

lemma split_tilde_join : ∀ es : List PyStr,
    (∀ e ∈ es, e ≠ [] ∧ '~' ∉ e) → es ≠ [] →
    split_tilde (py_join '~' es) = es
  | [], _, hne => absurd rfl hne
  | [e], h, _ => split_tilde_no_sep e (h e (by simp)).2
  | e :: e2 :: es, h, _ => by
    have h0 := h e (by simp)
    have ih := split_tilde_join (e2 :: es)
      (fun x hx => h x (List.mem_cons_of_mem e hx)) (by simp)
    show split_tilde (e ++ '~' :: py_join '~' (e2 :: es)) = e :: e2 :: es
    rw [split_tilde_append _ e h0.2, ih]

lemma parse_entries_entries_of (parse : PyStr → Option ℚ) (render : ℚ → PyStr) :
    ∀ (pats : List (List ℚ)) (hs ls : List ℚ),
      hs.length = pats.length → ls.length = pats.length →
      (∀ p ∈ pats, p ≠ []) →
      (∀ q ∈ pats.flatten, num_ok render parse q) →
      (∀ q ∈ hs, num_ok render parse q) →
      (∀ q ∈ ls, num_ok render parse q) →
      parse_entries parse (entries_of render pats hs ls) = (pats, hs, ls)
  | [], hs, ls, hlh, hll, _, _, _, _ => by
    have h1 : hs = [] := List.length_eq_zero.mp (by simpa using hlh)
    have h2 : ls = [] := List.length_eq_zero.mp (by simpa using hll)
    subst h1; subst h2
    rfl
  | pat :: pats', hs, ls, hlh, hll, hne, hnp, hnh, hnl => by
    cases hs with
    | nil => simp at hlh
    | cons h0 hs' =>
      cases ls with
      | nil => simp at hll
      | cons l0 ls' =>
        have hpat_ne : pat ≠ [] := hne pat (by simp)
        have hpat_num : ∀ q ∈ pat, num_ok render parse q := fun q hq =>
          hnp q (List.mem_flatten.mpr ⟨pat, by simp, hq⟩)
        have hpat_tok : ∀ q ∈ pat, tok_ok (render q) := fun q hq => (hpat_num q hq).1
        have hh0 : num_ok render parse h0 := hnh h0 (by simp)
        have hl0 : num_ok render parse l0 := hnl l0 (by simp)
        have hstrip := py_strip_render_entry render pat h0 l0 hpat_ne hpat_tok hl0.1
        have hnil := render_entry_ne_nil render pat h0 l0
        have hsb := split_brace_entry render pat h0 l0 hpat_tok hh0.1 hl0.1
        have hcp := parse_floats_space_join parse render pat hpat_num
        have ih := parse_entries_entries_of parse render pats' hs' ls'
          (by simpa using hlh) (by simpa using hll)
          (fun p hp => hne p (List.mem_cons_of_mem _ hp))
          (fun q hq => by
            refine hnp q ?_
            obtain ⟨p, hp, hqp⟩ := List.mem_flatten.mp hq
            exact List.mem_flatten.mpr ⟨p, List.mem_cons_of_mem _ hp, hqp⟩)
          (fun q hq => hnh q (List.mem_cons_of_mem _ hq))
          (fun q hq => hnl q (List.mem_cons_of_mem _ hq))
        show parse_entries parse
          (render_entry render pat h0 l0 :: entries_of render pats' hs' ls') = _
        simp only [parse_entries]
        rw [hstrip, ih, if_neg hnil, hsb]
        simp only [List.get?]
        rw [hcp, if_neg hpat_ne,
          mem_safe_float_render parse render h0 hh0,
          mem_safe_float_render parse render l0 hl0]


lemma render_entry_edge_ws (render : ℚ → PyStr) (pat : List ℚ) (h0 l0 : ℚ)
    (hpat_ne : pat ≠ [])
    (hpat : ∀ q ∈ pat, tok_ok (render q))
    (hl : tok_ok (render l0)) :
    (∀ c ∈ (render_entry render pat h0 l0).head?, c.isWhitespace = false) ∧
    (∀ c ∈ (render_entry render pat h0 l0).getLast?, c.isWhitespace = false) := by
  cases pat with
  | nil => exact absurd rfl hpat_ne
  | cons q0 pat' =>
    constructor
    · intro c hc
      rw [render_entry_head? render q0 pat' h0 l0 (hpat q0 (by simp)).1] at hc
      exact tok_ok_no_ws (hpat q0 (by simp)) c (mem_of_mem_head?' hc)
    · intro c hc
      rw [render_entry_getLast? render _ h0 l0 hl.1] at hc
      exact tok_ok_no_ws hl c (mem_of_mem_getLast?' hc)

/-- C6: round-trip of the on-disk memory format.  For every well-formed
`PatternMemory` (all parallel sequences of equal length, every pattern
non-empty) and every float rendering/parsing pair with Python's
`float(str(x)) == x` guarantee on the stored values (`num_ok`), parsing
`to_memory_text` together with the serialised weight texts and the
threshold reconstructs the memory exactly — in particular within any
`1e-9` tolerance. -/
theorem memory_text_roundtrip (render : ℚ → PyStr) (parse : PyStr → Option ℚ)
    (m : PatternMemory)
    (hh_len : m.high_diffs.length = m.patterns.length)
    (hl_len : m.low_diffs.length = m.patterns.length)
    (hw_len : m.weights.length = m.patterns.length)
    (hwh_len : m.weights_high.length = m.patterns.length)
    (hwl_len : m.weights_low.length = m.patterns.length)
    (hp_ne : ∀ p ∈ m.patterns, p ≠ [])
    (hnum : ∀ q ∈ all_nums m, num_ok render parse q) :
    from_memory_text parse (to_memory_text render m)
      (weights_text render m.weights) (weights_text render m.weights_high)
      (weights_text render m.weights_low) m.threshold = m := by
  obtain ⟨pats, hds, lds, ws, wsh, wsl, th⟩ := m
  simp only [all_nums] at hnum
  simp only at hh_len hl_len hw_len hwh_len hwl_len hp_ne
  have hn_p : ∀ q ∈ pats.flatten, num_ok render parse q := by
    intro q hq
    apply hnum
    simp only [List.mem_append]
    tauto
  have hn_h : ∀ q ∈ hds, num_ok render parse q := by
    intro q hq
    apply hnum
    simp only [List.mem_append]
    tauto
  have hn_l : ∀ q ∈ lds, num_ok render parse q := by
    intro q hq
    apply hnum
    simp only [List.mem_append]
    tauto
  have hn_w : ∀ q ∈ ws, num_ok render parse q := by
    intro q hq
    apply hnum
    simp only [List.mem_append]
    tauto
  have hn_wh : ∀ q ∈ wsh, num_ok render parse q := by
    intro q hq
    apply hnum
    simp only [List.mem_append]
    tauto
  have hn_wl : ∀ q ∈ wsl, num_ok render parse q := by
    intro q hq
    apply hnum
    simp only [List.mem_append]
    tauto
  have hws : parse_floats_space parse (weights_text render ws) = ws :=
    parse_floats_space_join parse render ws hn_w
  have hwsh : parse_floats_space parse (weights_text render wsh) = wsh :=
    parse_floats_space_join parse render wsh hn_wh
  have hwsl : parse_floats_space parse (weights_text render wsl) = wsl :=
    parse_floats_space_join parse render wsl hn_wl
  cases pats with
  | nil =>
    have h1 : hds = [] := List.length_eq_zero.mp (by simpa using hh_len)
    have h2 : lds = [] := List.length_eq_zero.mp (by simpa using hl_len)
    subst h1; subst h2
    show from_memory_text parse (py_join '~' (entries_of render [] [] [])) _ _ _ th = _
    simp only [entries_of, py_join, from_memory_text, py_strip, List.dropWhile_nil,
      List.reverse_nil, if_pos rfl, parse_entries]
    rw [hws, hwsh, hwsl]
  | cons pat pats' =>
    cases hds with
    | nil => simp at hh_len
    | cons h0 hs' =>
      cases lds with
      | nil => simp at hl_len
      | cons l0 ls' =>
        have hpat_ne : pat ≠ [] := hp_ne pat (by simp)
        have hpat_tok : ∀ q ∈ pat, tok_ok (render q) := fun q hq =>
          (hn_p q (List.mem_flatten.mpr ⟨pat, by simp, hq⟩)).1
        have hh0 : num_ok render parse h0 := hn_h h0 (by simp)
        have hl0 : num_ok render parse l0 := hn_l l0 (by simp)
        have e0_ne := render_entry_ne_nil render pat h0 l0
        have hent : ∀ e ∈ entries_of render (pat :: pats') (h0 :: hs') (l0 :: ls'),
            e ≠ [] ∧ '~' ∉ e := by
          intro e he
          obtain ⟨p, h, l, hp, hh, hl, rfl⟩ := mem_entries_of render _ _ _
            (by simpa using hh_len) (by simpa using hl_len) e he
          refine ⟨render_entry_ne_nil render p h l, ?_⟩
          exact tilde_not_mem_render_entry render p h l
            (fun q hq => (hn_p q (List.mem_flatten.mpr ⟨p, hp, hq⟩)).1)
            (hn_h h hh).1 (hn_l l hl).1
        have htext_ne : py_join '~'
            (entries_of render (pat :: pats') (h0 :: hs') (l0 :: ls')) ≠ [] := by
          show py_join '~' (render_entry render pat h0 l0 :: entries_of render pats' hs' ls') ≠ []
          exact py_join_ne_nil '~' _ _ e0_ne
        have hstrip_text : py_strip (py_join '~'
            (entries_of render (pat :: pats') (h0 :: hs') (l0 :: ls'))) =
            py_join '~' (entries_of render (pat :: pats') (h0 :: hs') (l0 :: ls')) := by
          apply py_strip_eq_self
          · intro c hc
            have hj : (py_join '~' (render_entry render pat h0 l0 ::
                entries_of render pats' hs' ls')).head? =
                (render_entry render pat h0 l0).head? :=
              py_join_head? '~' _ _ e0_ne
            rw [show py_join '~' (entries_of render (pat :: pats') (h0 :: hs') (l0 :: ls')) =
              py_join '~' (render_entry render pat h0 l0 ::
                entries_of render pats' hs' ls') from rfl, hj] at hc
            exact (render_entry_edge_ws render pat h0 l0 hpat_ne hpat_tok hl0.1).1 c hc
          · intro c hc
            obtain ⟨u, hu, heq⟩ := py_join_getLast? '~'
              (entries_of render pats' hs' ls') (render_entry render pat h0 l0)
              e0_ne (fun v hv => (hent v (List.mem_cons_of_mem _ hv)).1)
            rw [show py_join '~' (entries_of render (pat :: pats') (h0 :: hs') (l0 :: ls')) =
              py_join '~' (render_entry render pat h0 l0 ::
                entries_of render pats' hs' ls') from rfl, heq] at hc
            have hu' : u ∈ entries_of render (pat :: pats') (h0 :: hs') (l0 :: ls') := hu
            obtain ⟨p, h, l, hp, hh, hl, rfl⟩ := mem_entries_of render (pat :: pats')
              (h0 :: hs') (l0 :: ls') hh_len hl_len u hu'
            exact (render_entry_edge_ws render p h l
              (hp_ne p hp)
              (fun q hq => (hn_p q (List.mem_flatten.mpr ⟨p, hp, hq⟩)).1)
              (hn_l l hl).1).2 c hc
        have hsplit := split_tilde_join
          (entries_of render (pat :: pats') (h0 :: hs') (l0 :: ls')) hent (by
            show render_entry render pat h0 l0 :: entries_of render pats' hs' ls' ≠ []
            simp)
        have hpe := parse_entries_entries_of parse render (pat :: pats')
          (h0 :: hs') (l0 :: ls') hh_len hl_len hp_ne hn_p hn_h hn_l
        show from_memory_text parse
          (py_join '~' (entries_of render (pat :: pats') (h0 :: hs') (l0 :: ls')))
          _ _ _ th = _
        simp only [from_memory_text]
        rw [hstrip_text, if_neg htext_ne, hsplit, hpe, hws, hwsh, hwsl]


/-- A concrete rendering of the values stored in `mem_w`. -/
def render_w : ℚ → PyStr := fun q => if q = 1 then ['1'] else if q = 2 then ['2'] else ['9']

/-- A concrete parser matching `render_w` on the values of `mem_w`. -/
def parse_w : PyStr → Option ℚ := fun s =>
  if s = ['1'] then some 1 else if s = ['2'] then some 2 else none

/-- A small well-formed memory. -/
def mem_w : PatternMemory :=
  { patterns := [[1]], high_diffs := [2], low_diffs := [1],
    weights := [1], weights_high := [2], weights_low := [1], threshold := 5 }

/-- C6 witness: the round-trip at a concrete memory and rendering. -/
theorem memory_text_roundtrip_witness :
    from_memory_text parse_w (to_memory_text render_w mem_w)
      (weights_text render_w mem_w.weights) (weights_text render_w mem_w.weights_high)
      (weights_text render_w mem_w.weights_low) mem_w.threshold = mem_w :=
  memory_text_roundtrip render_w parse_w mem_w rfl rfl rfl rfl rfl
    (by decide) (by decide)

end PowerTrader
